import Mathlib

/-!
Verification development for the floucast-processing document pipeline.

The definitions below are a shallow embedding of the JavaScript source:

* `parseNumericValue` embeds the numeric normalizer `parseNumericValue`
  (enhanced DocumentProcessor, lines 11-67).
* `braceSpan`, `extractStructuredDataParse`, `getDefaultStructuredData`
  embed the response-parsing tail of
  `src/services/DocumentProcessor.js` `extractStructuredData` (lines 296-318).
* `combinedQualityFilter` embeds the quality check of
  `performCombinedAIExtraction` (enhanced DocumentProcessor, lines 1040-1050).
* `routerExtractionCalls` embeds the AI-extraction call trace of
  `processFileContentEnhanced` (enhanced DocumentProcessor, lines 271-358).
* `saveLineItems`, `saveBankTransactions`, `saveDocumentChunks`,
  `createDefaultLineItem`, `persistChildren` embed the child-record
  persistence of `updateDocumentWithResults` (lines 1549-1695).
* `processMessage` embeds `src/services/QueueManager.js` `processMessage`
  (lines 105-339).

JavaScript machine doubles are modelled as exact rationals: every claim
below only compares values produced by parsing short decimal literals, so
no rounding behaviour is observable.
-/

/-! ## JavaScript string primitives -/

/-- Whitespace characters recognised by JS `String.prototype.trim` and the
`\s` regex class (the ASCII members plus NBSP; the rarer Unicode space
code points never occur in the inputs considered here). -/
def jsSpaceChars : List Char := [' ', '\t', '\n', '\x0d', '\x0b', '\x0c', ' ']

def isJsSpace (c : Char) : Bool := jsSpaceChars.contains c

/-- JS `String.prototype.trim` on a character list. -/
def jsTrimList (cs : List Char) : List Char :=
  ((cs.dropWhile isJsSpace).reverse.dropWhile isJsSpace).reverse

/-- JS `String.prototype.trim`. -/
def jsTrim (s : String) : String := ⟨jsTrimList s.data⟩

/-- JS truthiness of a possibly-null string (`null`/`undefined` and `""`
are falsy). -/
def jsTruthyOptStr : Option String → Bool
  | none => false
  | some s => s != ""

/-- ASCII letter, the `[A-Za-z]` regex class. -/
def isAsciiLetter (c : Char) : Bool :=
  decide (('A' ≤ c ∧ c ≤ 'Z') ∨ ('a' ≤ c ∧ c ≤ 'z'))

/-- Replace the first occurrence of `target` (JS `replace` with a string
pattern replaces only the first match). -/
def replaceFirst (target repl : Char) : List Char → List Char
  | [] => []
  | c :: rest => if c = target then repl :: rest else c :: replaceFirst target repl rest

/-- JS `String.prototype.lastIndexOf` for a single character: index of the
last occurrence, `-1` when absent. -/
def lastIndexOfZ (ch : Char) : List Char → Int
  | [] => -1
  | c :: rest =>
    let r := lastIndexOfZ ch rest
    if 0 ≤ r then r + 1
    else if c = ch then 0 else -1

/-- Value of a digit string, most significant digit first. -/
def digitsToNat (cs : List Char) : Nat :=
  cs.foldl (fun n c => 10 * n + (c.toNat - 48)) 0

/-- JS `parseFloat` restricted to the alphabet `[0-9.-]`, the only
characters that survive the final cleanup of the normalizer: an optional
leading minus, an integer digit run, an optional `.` plus fraction run;
parsing stops at the first character that fits neither, and the result is
NaN (`none`) when no digit was consumed. -/
def jsParseFloat (cs : List Char) : Option ℚ :=
  let neg : Bool := cs.head? == some '-'
  let body := if neg then cs.tail else cs
  let intPart := body.takeWhile Char.isDigit
  let afterInt := body.drop intPart.length
  let fracPart : List Char :=
    if afterInt.head? == some '.' then afterInt.tail.takeWhile Char.isDigit else []
  if intPart = [] ∧ fracPart = [] then none
  else
    let mag : ℚ := (digitsToNat (intPart ++ fracPart) : ℚ) / ((10 : ℚ) ^ fracPart.length)
    some (if neg then -mag else mag)

/-! ## Numeric normalizer (`parseNumericValue`) -/

/-- The strip in `cleanValue.replace(/[A-Za-z\s$€£¥₹]/g, '')`. -/
def isCurrencyStripChar (c : Char) : Bool :=
  isAsciiLetter c || isJsSpace c || ['$', '€', '£', '¥', '₹'].contains c

def stripCurrency (cs : List Char) : List Char :=
  cs.filter (fun c => !(isCurrencyStripChar c))

/-- The separator-disambiguation branch chain of `parseNumericValue`
(periods versus commas), statement for statement. -/
def normalizeSeparators (cs : List Char) : List Char :=
  let periodCount := cs.count '.'
  let commaCount := cs.count ','
  if periodCount > 1 ∧ commaCount = 1 then
    replaceFirst ',' '.' (cs.filter (fun c => c != '.'))
  else if periodCount = 1 ∧ commaCount > 1 then
    cs.filter (fun c => c != ',')
  else if periodCount = 0 ∧ commaCount = 1 then
    replaceFirst ',' '.' cs
  else if periodCount = 1 ∧ commaCount = 0 then
    cs
  else
    let lastPeriod := lastIndexOfZ '.' cs
    let lastComma := lastIndexOfZ ',' cs
    if lastPeriod > lastComma ∧ lastPeriod > -1 then
      (cs.take lastPeriod.toNat).filter (fun c => !(c == ',' || c == '.')) ++
        '.' :: cs.drop (lastPeriod.toNat + 1)
    else if lastComma > lastPeriod ∧ lastComma > -1 then
      (cs.take lastComma.toNat).filter (fun c => !(c == ',' || c == '.')) ++
        '.' :: cs.drop (lastComma.toNat + 1)
    else
      cs.filter (fun c => !(c == ',' || c == '.'))

/-- The final cleanup and parse of `parseNumericValue`: strip everything
but `[0-9.-]`, return `null` for `""`, `"-"`, `"."`, else `parseFloat`
(`null` when NaN). -/
def finishNumeric (cs : List Char) : Option ℚ :=
  let final := cs.filter (fun c => c.isDigit || c == '.' || c == '-')
  if final = [] ∨ final = ['-'] ∨ final = ['.'] then none
  else jsParseFloat final

/-- `parseNumericValue` from the enhanced DocumentProcessor (lines 11-67):
early `null` for the empty string, trim, currency strip, separator
disambiguation, final cleanup and float parse. -/
def parseNumericValue (value : String) : Option ℚ :=
  if value = "" then none
  else finishNumeric (normalizeSeparators (stripCurrency (jsTrimList value.data)))

/-! ## Response parser (`extractStructuredData`, DocumentProcessor.js) -/

/-- The regex `/\{[\s\S]*\}/` applied by `extractStructuredData`: the match
starts at the first `{` that is followed by a later `}`, and the greedy
`[\s\S]*` extends the match to the last `}` of the string. -/
def braceSpan : List Char → Option (List Char)
  | [] => none
  | c :: rest =>
    if c = '{' ∧ '}' ∈ rest then
      some ('{' :: rest.take ((lastIndexOfZ '}' rest).toNat + 1))
    else braceSpan rest

/-- The balanced-brace extraction described by the specification: from the
first `{` to its matching `}`, respecting nested braces.  Second
definition kept solely for comparison with `braceSpan`; the fuel argument
makes the depth-counting scan structurally recursive. -/
def balancedFrom : List Char → Nat → Option (List Char)
  | [], _ => none
  | c :: rest, depth =>
    if c = '}' then
      if depth = 1 then some [c]
      else (balancedFrom rest (depth - 1)).map (c :: ·)
    else if c = '{' then (balancedFrom rest (depth + 1)).map (c :: ·)
    else (balancedFrom rest depth).map (c :: ·)

/-- Specification-described brace scan (see `balancedFrom`). -/
def balancedBraceSpan : List Char → Option (List Char)
  | [] => none
  | c :: rest =>
    if c = '{' then (balancedFrom rest 1).map (c :: ·)
    else balancedBraceSpan rest

/-- The record shape produced by `getDefaultStructuredData`
(DocumentProcessor.js lines 660-671); child arrays are kept only by
length-relevant shape. -/
structure StructuredRecord where
  vendor_name : Option String
  document_type : String
  document_date : Option String
  due_date : Option String
  total_amount : Option ℚ
  tax_amount : Option ℚ
  currency : String
  line_items : List Unit
  bank_transactions : List Unit
deriving DecidableEq

/-- `getDefaultStructuredData` (DocumentProcessor.js lines 660-671). -/
def getDefaultStructuredData : StructuredRecord :=
  { vendor_name := none
    document_type := "other"
    document_date := none
    due_date := none
    total_amount := none
    tax_amount := none
    currency := "IDR"
    line_items := []
    bank_transactions := [] }

/-- The response-parsing tail of `extractStructuredData`
(DocumentProcessor.js lines 306-318): apply the greedy brace regex; on a
match, `JSON.parse` it (a throwing parse is caught by the surrounding
`try`, yielding the default record); with no match return the default
record.  `JSON.parse` is an external runtime built-in and is passed in as
an abstract parameter `jsonParse` (`none` models a throw). -/
def extractStructuredDataParse
    (jsonParse : List Char → Option StructuredRecord)
    (responseText : List Char) : StructuredRecord :=
  match braceSpan responseText with
  | some sub =>
    match jsonParse sub with
    | some r => r
    | none => getDefaultStructuredData
  | none => getDefaultStructuredData

/-! ## Combined-extraction quality check (`performCombinedAIExtraction`) -/

/-- The structured portion parsed out of a combined small-document
response, as inspected by the quality check: `vendor` and `amount` are
`some` exactly when the JSON fields are non-null (`!= null`),
`line_items` is `some` exactly when `Array.isArray` holds, and
`description` is `some` exactly when the field is a string. -/
structure CombinedParsed where
  vendor : Option String
  amount : Option ℚ
  line_items : Option (List Unit)
  description : Option String
deriving DecidableEq

/-- The quality check of `performCombinedAIExtraction` (enhanced
DocumentProcessor, lines 1040-1050): keep the parsed structured data when
`hasLineItems || hasDescription || hasCoreMeta`, otherwise discard it
(`extractedData = null`). -/
def combinedQualityFilter (d : CombinedParsed) : Option CombinedParsed :=
  let hasLineItems : Bool := match d.line_items with
    | some l => decide (0 < l.length)
    | none => false
  let hasDescription : Bool := match d.description with
    | some s => jsTrim s != ""
    | none => false
  let hasCoreMeta : Bool := d.vendor.isSome && d.amount.isSome
  if hasLineItems || hasDescription || hasCoreMeta then some d else none

/-! ## Extraction strategy router (`processFileContentEnhanced`) -/

/-- One AI extraction call: the combined small-document call, a full-text
call on a byte range of the input, or a structured-fields call on the
original bytes. -/
inductive AICall where
  | combined : AICall
  | fullTextCall (start len : Nat) : AICall
  | structuredCall : AICall
deriving DecidableEq

/-- Environment of external outcomes consumed by one run of
`processFileContentEnhanced`: whether the combined call throws, the parsed
pieces of its response, the spreadsheet converter output, the full-text
extraction result (`null` modelled as `none`), and whether the separate
structured extraction throws. -/
structure RouterEnv where
  combinedThrows : Bool
  combinedFullText : Option String
  combinedParsed : Option CombinedParsed
  xlsxText : String
  fullTextResult : Option String
  structuredThrows : Bool

/-- AI-extraction call trace of `processFileContentEnhanced` (enhanced
DocumentProcessor, lines 271-358), paired with whether the function
returns normally (`false` = it throws).  The subsequent embedding
generation issues no extraction calls and is outside this trace. -/
def routerExtractionCalls (byteLength : Nat) (fileType : String) (env : RouterEnv) :
    List AICall × Bool :=
  let isSmallDocument := byteLength < 500 * 1024
  let isXlsxFile := fileType = "xlsx" ∨ fileType = "xls"
  let fullText0 : Option String := if isXlsxFile then some env.xlsxText else none
  let step1 : List AICall × Option String × Bool :=
    if isSmallDocument ∧ ¬ isXlsxFile then
      if env.combinedThrows then ([AICall.combined], fullText0, false)
      else
        let extracted := env.combinedParsed.bind combinedQualityFilter
        let ft1 := if jsTruthyOptStr env.combinedFullText then env.combinedFullText else fullText0
        ([AICall.combined], ft1, extracted.isSome)
    else ([], fullText0, false)
  let calls1 := step1.1
  let ft1 := step1.2.1
  let skipStructured := step1.2.2
  let step2 : List AICall × Option String :=
    if ¬ jsTruthyOptStr ft1 = true ∧ ¬ isXlsxFile then
      (calls1 ++ [AICall.fullTextCall 0 byteLength], env.fullTextResult)
    else (calls1, ft1)
  let calls2 := step2.1
  let ft2 := step2.2
  if ¬ jsTruthyOptStr ft2 = true then (calls2, false)
  else if ¬ skipStructured = true then (calls2 ++ [AICall.structuredCall], !env.structuredThrows)
  else (calls2, true)

/-- Number of full-text extraction calls in a trace. -/
def countFullTextCalls (calls : List AICall) : Nat :=
  (calls.filter fun c => match c with
    | AICall.fullTextCall _ _ => true
    | _ => false).length

/-! ## Child-record persistence (`updateDocumentWithResults`) -/

/-- JS substring containment (`String.prototype.includes`). -/
def containsSub (s pat : String) : Bool := decide (1 < (s.splitOn pat).length)

/-- JS `x || 1` on a nullable number (0, `null`, `undefined` are falsy). -/
def jsOrOne : Option ℚ → ℚ
  | some q => if q = 0 then 1 else q
  | none => 1

/-- JS `x || ''` on a nullable string. -/
def jsOrEmpty : Option String → String
  | some s => s
  | none => ""

/-- A line item as it arrives inside `extractedData.line_items`. -/
structure LineItemIn where
  description : Option String
  quantity : Option ℚ
  unit_price : Option ℚ
  line_total_amount : Option ℚ
deriving DecidableEq

/-- A `document_line_items` row as built by `saveLineItems` /
`createDefaultLineItem` (the default-item insert leaves the boolean
flags to their database default, `false`). -/
structure LineItemRow where
  document_id : String
  description : Option String
  quantity : ℚ
  unit_price : Option ℚ
  line_total_amount : Option ℚ
  sort_order : Nat
  item_type : String
  is_tax_line : Bool
  is_discount_line : Bool
deriving DecidableEq

/-- A transaction as it arrives inside `extractedData.bank_transactions`. -/
structure BankTxIn where
  transaction_date : Option String
  description : Option String
  reference_code : Option String
  debit_amount : Option ℚ
  credit_amount : Option ℚ
  running_balance : Option ℚ
  transaction_type : Option String
deriving DecidableEq

/-- A `bank_statement_transactions` row as built by `saveBankTransactions`. -/
structure BankTxRow where
  document_id : String
  transaction_date : Option String
  description : String
  reference_code : Option String
  debit_amount : Option ℚ
  credit_amount : Option ℚ
  running_balance : Option ℚ
  transaction_type : Option String
  sort_order : Nat
deriving DecidableEq

/-- One generated embedding as handed to `saveDocumentChunks`. -/
structure EmbeddingIn where
  text : String
  embedding : List ℚ
deriving DecidableEq

/-- A `document_chunks` row as built by `saveDocumentChunks`. -/
structure ChunkRow where
  document_id : String
  content : String
  embedding : List ℚ
  chunk_index : Nat
deriving DecidableEq

/-- `Array.prototype.map` with the element index, from a given start. -/
def mapWithIdxFrom (f : Nat → α → β) : Nat → List α → List β
  | _, [] => []
  | i, a :: rest => f i a :: mapWithIdxFrom f (i + 1) rest

/-- Row construction inside `saveLineItems` (enhanced DocumentProcessor,
lines 1578-1594): tax/discount classification by substring on the
lower-cased description, `quantity || 1`, `sort_order = index + 1`. -/
def lineItemRow (docId : String) (i : Nat) (item : LineItemIn) : LineItemRow :=
  let isTaxLine : Bool := match item.description with
    | some s => containsSub s.toLower "tax"
    | none => false
  let isDiscountLine : Bool := match item.description with
    | some s => containsSub s.toLower "discount"
    | none => false
  { document_id := docId
    description := item.description
    quantity := jsOrOne item.quantity
    unit_price := item.unit_price
    line_total_amount := item.line_total_amount
    sort_order := i + 1
    item_type := if isTaxLine then "tax" else if isDiscountLine then "discount" else "product"
    is_tax_line := isTaxLine
    is_discount_line := isDiscountLine }

/-- `saveLineItems` (enhanced DocumentProcessor, lines 1571-1605): delete
all rows of the document, then insert the mapped items.  The
`apArStatus` argument is accepted and unused, as in the source. -/
def saveLineItems (table : List LineItemRow) (documentId : String)
    (lineItems : List LineItemIn) (apArStatus : Option String) : List LineItemRow :=
  let _ := apArStatus
  table.filter (fun r => !(r.document_id == documentId)) ++
    mapWithIdxFrom (lineItemRow documentId) 0 lineItems

/-- `createDefaultLineItem` (lines 1608-1635): build a fallback
description, and only when the extracted `amount` is truthy delete the
rows of the document and insert one default item. -/
def createDefaultLineItem (table : List LineItemRow) (documentId : String)
    (description vendor : Option String) (amount : Option ℚ) : List LineItemRow :=
  let defaultDescription : String :=
    match description with
    | some s =>
      if s ≠ "" then s
      else match vendor with
        | some v => if v ≠ "" then "Purchase from " ++ v else "General item"
        | none => "General item"
    | none =>
      match vendor with
      | some v => if v ≠ "" then "Purchase from " ++ v else "General item"
      | none => "General item"
  let amountTruthy : Bool := match amount with
    | some q => decide (q ≠ 0)
    | none => false
  if defaultDescription ≠ "" ∧ amountTruthy = true then
    table.filter (fun r => !(r.document_id == documentId)) ++
      [{ document_id := documentId
         description := some defaultDescription
         quantity := 1
         unit_price := amount
         line_total_amount := amount
         sort_order := 1
         item_type := "product"
         is_tax_line := false
         is_discount_line := false }]
  else table

/-- Row construction inside `saveBankTransactions` (lines 1645-1656). -/
def bankTxRow (docId : String) (i : Nat) (t : BankTxIn) : BankTxRow :=
  { document_id := docId
    transaction_date := t.transaction_date
    description := jsOrEmpty t.description
    reference_code := t.reference_code
    debit_amount := t.debit_amount
    credit_amount := t.credit_amount
    running_balance := t.running_balance
    transaction_type := t.transaction_type
    sort_order := i + 1 }

/-- `saveBankTransactions` (lines 1637-1666): delete-then-insert. -/
def saveBankTransactions (table : List BankTxRow) (documentId : String)
    (txs : List BankTxIn) : List BankTxRow :=
  table.filter (fun r => !(r.document_id == documentId)) ++
    mapWithIdxFrom (bankTxRow documentId) 0 txs

/-- `saveDocumentChunks` (lines 1668-1695): delete-then-insert with
0-based `chunk_index`. -/
def saveDocumentChunks (table : List ChunkRow) (documentId : String)
    (embeddings : List EmbeddingIn) : List ChunkRow :=
  table.filter (fun r => !(r.document_id == documentId)) ++
    mapWithIdxFrom (fun i e => ⟨documentId, e.text, e.embedding, i⟩) 0 embeddings

/-- The fields of the processed `extractedData` consulted by the
child-record persistence step (`line_items`/`bank_transactions` are
`some` exactly when `Array.isArray` holds). -/
structure ExtractedPersist where
  description : Option String
  vendor : Option String
  amount : Option ℚ
  ap_ar_status : Option String
  line_items : Option (List LineItemIn)
  bank_transactions : Option (List BankTxIn)
deriving DecidableEq

/-- The three child tables touched by `updateDocumentWithResults`. -/
structure ChildTables where
  lineItems : List LineItemRow
  bankTx : List BankTxRow
  chunks : List ChunkRow
deriving DecidableEq

/-- Line-item branch of `updateDocumentWithResults` (lines 1549-1555). -/
def persistLineItemsStep (table : List LineItemRow) (documentId : String)
    (e : ExtractedPersist) : List LineItemRow :=
  match e.line_items with
  | some items =>
    if 0 < items.length then saveLineItems table documentId items e.ap_ar_status
    else createDefaultLineItem table documentId e.description e.vendor e.amount
  | none => createDefaultLineItem table documentId e.description e.vendor e.amount

/-- Bank-transaction branch of `updateDocumentWithResults` (lines 1557-1560). -/
def persistBankStep (table : List BankTxRow) (documentId : String)
    (e : ExtractedPersist) : List BankTxRow :=
  match e.bank_transactions with
  | some txs => if 0 < txs.length then saveBankTransactions table documentId txs else table
  | none => table

/-- Embedding-chunk branch of `updateDocumentWithResults` (lines 1562-1565). -/
def persistChunksStep (table : List ChunkRow) (documentId : String)
    (embeddings : List EmbeddingIn) : List ChunkRow :=
  if 0 < embeddings.length then saveDocumentChunks table documentId embeddings else table

/-- The full child-record persistence performed by one successful
processing pass. -/
def persistChildren (s : ChildTables) (documentId : String)
    (e : ExtractedPersist) (embeddings : List EmbeddingIn) : ChildTables :=
  { lineItems := persistLineItemsStep s.lineItems documentId e
    bankTx := persistBankStep s.bankTx documentId e
    chunks := persistChunksStep s.chunks documentId embeddings }

/-! ## Queue consumer (`QueueManager.processMessage`) -/

/-- The shape of one received SQS message after the initial parsing steps:
whether `JSON.parse(message.Body)` succeeds, whether the body is an S3
event notification, the organization id obtained from message attributes
or the S3 key (or the legacy body field), and the legacy-body
`documentId`/`vertical`. -/
structure SqsMessage where
  bodyParses : Bool
  isS3Event : Bool
  organizationId : Option String
  legacyDocumentId : Option String
  legacyVertical : Option String
deriving DecidableEq

/-- External collaborators of `processMessage`: whether the Supabase
client was configured, which organizations the lookup finds, and whether
`documentProcessor.processDocument` throws. -/
structure ConsumerEnv where
  supabaseConfigured : Bool
  orgExists : String → Bool
  processingThrows : Bool

/-- Observable outcome of `processMessage` for one message: whether a
`DeleteMessageCommand` was sent (the message acknowledged) and whether
the Processing Engine (`processDocument`) was invoked. -/
structure MessageOutcome where
  deleted : Bool
  engineInvoked : Bool
deriving DecidableEq

/-- Shared tail of both branches of `processMessage`: organization
truthiness check, organization validation against Supabase when the
client is configured, then processing; success deletes the message, a
throw is caught without deleting. -/
def processWithOrg (env : ConsumerEnv) (organizationId : Option String) : MessageOutcome :=
  match organizationId with
  | none => ⟨true, false⟩
  | some org =>
    if org = "" then ⟨true, false⟩
    else if env.supabaseConfigured = true ∧ env.orgExists org = false then ⟨true, false⟩
    else if env.processingThrows then ⟨false, true⟩
    else ⟨true, true⟩

/-- `QueueManager.processMessage` (QueueManager.js lines 105-339),
restricted to its acknowledgement/engine-invocation behaviour.  A failed
body parse, or a legacy message missing `documentId` or `vertical`,
throws into the catch block, which does not delete the message. -/
def processMessage (env : ConsumerEnv) (m : SqsMessage) : MessageOutcome :=
  if m.bodyParses = false then ⟨false, false⟩
  else if m.isS3Event then processWithOrg env m.organizationId
  else if m.legacyDocumentId = none ∨ m.legacyVertical = none then ⟨false, false⟩
  else processWithOrg env m.organizationId

/-! ## Concrete inputs used by witnesses and counterexamples -/

def digitChars : List Char := ['0', '1', '2', '3', '4', '5', '6', '7', '8', '9']

/-- An AI response with vendor/amount/date text patterns but no JSON
object at all. -/
def c4Response : List Char :=
  "Vendor: Acme Corp, Amount: 1000 USD, Date: 2024-01-15".data

/-- An AI response containing a balanced JSON object followed by trailing
text that itself contains a further closing brace. -/
def c5Response : List Char :=
  "Sure: ".data ++ '{' :: ("\"vendor\":\"X\"".data ++ '}' :: (" note: ".data ++ ['}']))

/-- Router environment for a plain PDF whose full-text extraction
succeeds; the combined-call fields are irrelevant on the large-file
path. -/
def envLarge : RouterEnv :=
  { combinedThrows := false
    combinedFullText := none
    combinedParsed := none
    xlsxText := ""
    fullTextResult := some "Extracted document text"
    structuredThrows := false }

/-- A combined structured extraction with a vendor but neither amount,
line items, nor description. -/
def c9Sample : CombinedParsed :=
  { vendor := some "Acme", amount := none, line_items := some [], description := none }

/-- Legacy-format message carrying no organization id and no
`documentId`. -/
def qcMsgLegacyBroken : SqsMessage :=
  { bodyParses := true, isS3Event := false, organizationId := none,
    legacyDocumentId := none, legacyVertical := some "accounting" }

/-- S3-event message whose organization id is unknown to the datastore. -/
def qcMsgUnknownOrg : SqsMessage :=
  { bodyParses := true, isS3Event := true, organizationId := some "org-1",
    legacyDocumentId := none, legacyVertical := none }

/-- Consumer environment: datastore configured, no organization exists,
processing succeeds. -/
def qcEnvNoOrg : ConsumerEnv :=
  { supabaseConfigured := true, orgExists := fun _ => false, processingThrows := false }

/-- Consumer environment: datastore configured, every organization
exists, processing throws. -/
def qcEnvThrow : ConsumerEnv :=
  { supabaseConfigured := true, orgExists := fun _ => true, processingThrows := true }

/-! ## Helper lemmas -/

lemma digitChar_facts (c : Char) (h : c ∈ digitChars) :
    isCurrencyStripChar c = false ∧ c.isDigit = true ∧ isJsSpace c = false ∧
      (c == ',') = false ∧ (c == '.') = false ∧ (c == '-') = false := by
  fin_cases h <;> decide

lemma minusChar_facts :
    isCurrencyStripChar '-' = false ∧ Char.isDigit '-' = false ∧ isJsSpace '-' = false ∧
      (('-' : Char) == ',') = false ∧ (('-' : Char) == '.') = false := by
  decide

lemma dropWhile_eq_self_of_none (p : Char → Bool) (l : List Char)
    (h : ∀ c ∈ l, p c = false) : l.dropWhile p = l := by
  cases l with
  | nil => rfl
  | cons a rest => simp [List.dropWhile, h a (List.mem_cons_self a rest)]

lemma jsTrimList_eq_self (l : List Char) (h : ∀ c ∈ l, isJsSpace c = false) :
    jsTrimList l = l := by
  unfold jsTrimList
  rw [dropWhile_eq_self_of_none _ _ h]
  rw [dropWhile_eq_self_of_none _ _ (fun c hc => h c (List.mem_reverse.mp hc))]
  exact List.reverse_reverse l

lemma lastIndexOfZ_of_not_mem (ch : Char) (l : List Char) (h : ch ∉ l) :
    lastIndexOfZ ch l = -1 := by
  induction l with
  | nil => rfl
  | cons c rest ih =>
    have hc : c ≠ ch := fun hcc => h (hcc ▸ List.mem_cons_self c rest)
    have hrest : ch ∉ rest := fun hm => h (List.mem_cons_of_mem c hm)
    simp [lastIndexOfZ, ih hrest, hc]

lemma lastIndexOfZ_append_last (mid post : List Char) (h : '}' ∉ post) :
    lastIndexOfZ '}' (mid ++ '}' :: post) = (mid.length : ℤ) := by
  induction mid with
  | nil => simp [lastIndexOfZ, lastIndexOfZ_of_not_mem '}' post h]
  | cons c mid ih =>
    simp only [List.cons_append, lastIndexOfZ, List.append_eq, ih, List.length_cons]
    rw [if_pos (Int.natCast_nonneg mid.length)]
    push_cast
    ring

lemma takeWhile_append_stop (p : Char → Bool) (l₁ : List Char) (x : Char) (l₂ : List Char)
    (h1 : ∀ c ∈ l₁, p c = true) (hx : p x = false) :
    (l₁ ++ x :: l₂).takeWhile p = l₁ := by
  induction l₁ with
  | nil => simp [List.takeWhile, hx]
  | cons a rest ih =>
    have ha : p a = true := h1 a (List.mem_cons_self a rest)
    simp only [List.cons_append, List.takeWhile, ha]
    exact congrArg (a :: ·) (ih (fun c hc => h1 c (List.mem_cons_of_mem a hc)))

lemma normalizeSeparators_of_no_separators (l : List Char)
    (h1 : '.' ∉ l) (h2 : ',' ∉ l) : normalizeSeparators l = l := by
  have hp : l.count '.' = 0 := List.count_eq_zero.mpr h1
  have hc : l.count ',' = 0 := List.count_eq_zero.mpr h2
  have hfix : ∀ c ∈ l, (!(c == ',' || c == '.')) = true := by
    intro c hcm
    have hne1 : c ≠ ',' := fun hcc => h2 (hcc ▸ hcm)
    have hne2 : c ≠ '.' := fun hcc => h1 (hcc ▸ hcm)
    simp [hne1, hne2]
  unfold normalizeSeparators
  simp only [hp, hc]
  rw [if_neg (by omega), if_neg (by omega), if_neg (by omega), if_neg (by omega)]
  rw [lastIndexOfZ_of_not_mem '.' l h1, lastIndexOfZ_of_not_mem ',' l h2]
  rw [if_neg (by omega), if_neg (by omega)]
  exact List.filter_eq_self.mpr hfix

lemma normalizeSeparators_intl (l : List Char)
    (hp : l.count '.' = 1) (hc : 1 < l.count ',') :
    normalizeSeparators l = l.filter (fun c => c != ',') := by
  have h1 : ¬(l.count '.' > 1 ∧ l.count ',' = 1) := by omega
  have h2 : l.count '.' = 1 ∧ l.count ',' > 1 := ⟨hp, hc⟩
  simp only [normalizeSeparators]
  rw [if_neg h1, if_pos h2]

lemma charNumFacts (c : Char) (h : c ∈ '-' :: digitChars) :
    isJsSpace c = false ∧ (!(isCurrencyStripChar c)) = true ∧ c ≠ '.' ∧ c ≠ ',' ∧
      (c.isDigit || c == '.' || c == '-') = true := by
  simp only [digitChars, List.mem_cons, List.not_mem_nil, or_false] at h
  rcases h with rfl | rfl | rfl | rfl | rfl | rfl | rfl | rfl | rfl | rfl | rfl <;> decide

lemma digitChar_isDigit (c : Char) (h : c ∈ digitChars) :
    Char.isDigit c = true ∧ (c == '-') = false := by
  simp only [digitChars, List.mem_cons, List.not_mem_nil, or_false] at h
  rcases h with rfl | rfl | rfl | rfl | rfl | rfl | rfl | rfl | rfl | rfl <;> decide

lemma jsParseFloat_digitRun (d0 : Char) (ds rest : List Char)
    (hd : ∀ c ∈ d0 :: ds, Char.isDigit c = true)
    (hd0 : (d0 == '-') = false) :
    jsParseFloat ((d0 :: ds) ++ '-' :: rest) = some ((digitsToNat (d0 :: ds) : ℚ)) := by
  have hneg : (((d0 :: ds) ++ '-' :: rest).head? == some '-') = false := by
    simp only [List.cons_append, List.head?_cons]
    exact beq_eq_false_iff_ne.mpr (fun h => (beq_eq_false_iff_ne.mp hd0) (Option.some.inj h))
  have htake : ((d0 :: ds) ++ '-' :: rest).takeWhile Char.isDigit = d0 :: ds :=
    takeWhile_append_stop _ _ _ _ hd (by decide)
  have hdrop : ((d0 :: ds) ++ '-' :: rest).drop (d0 :: ds).length = '-' :: rest :=
    List.drop_left _ _
  simp only [jsParseFloat, hneg, Bool.false_eq_true, if_false, htake, hdrop,
    List.head?_cons]
  rw [show (((some '-' : Option Char)) == some '.') = false from by decide]
  simp only [Bool.false_eq_true, if_false]
  rw [if_neg (fun hcon => List.cons_ne_nil d0 ds hcon.1)]
  simp [List.append_nil]

/-- C10 support: the numeric normalizer on a string made of a nonempty
digit run, a minus sign, then digits/minus characters, returns the value
of the leading digit run. -/
theorem numericNormalizer_leadingDigitRun (ds rest : List Char)
    (hne : ds ≠ [])
    (hd : ∀ c ∈ ds, c ∈ digitChars)
    (hr : ∀ c ∈ rest, c ∈ '-' :: digitChars) :
    parseNumericValue ⟨ds ++ '-' :: rest⟩ = some ((digitsToNat ds : ℚ)) := by
  obtain ⟨d0, ds', rfl⟩ : ∃ d0 ds', ds = d0 :: ds' := by
    cases ds with
    | nil => exact absurd rfl hne
    | cons a b => exact ⟨a, b, rfl⟩
  set l := (d0 :: ds') ++ '-' :: rest with hl
  have hmem : ∀ c ∈ l, c ∈ '-' :: digitChars := by
    intro c hc
    rcases List.mem_append.mp hc with h1 | h2
    · exact List.mem_cons_of_mem _ (hd c h1)
    · rcases List.mem_cons.mp h2 with rfl | h3
      · exact List.mem_cons_self _ _
      · exact hr c h3
  have hfacts := fun c hc => charNumFacts c (hmem c hc)
  have hs : (⟨l⟩ : String) ≠ "" := by
    intro hcontra
    have h0 : l = [] := congrArg String.data hcontra
    rw [hl] at h0
    exact List.cons_ne_nil _ _ h0
  unfold parseNumericValue
  rw [if_neg hs]
  show finishNumeric (normalizeSeparators (stripCurrency (jsTrimList l))) = _
  rw [jsTrimList_eq_self l (fun c hc => (hfacts c hc).1)]
  rw [show stripCurrency l = l from List.filter_eq_self.mpr (fun c hc => (hfacts c hc).2.1)]
  have hdot : '.' ∉ l := fun hm => ((hfacts '.' hm).2.2.1) rfl
  have hcomma : ',' ∉ l := fun hm => ((hfacts ',' hm).2.2.2.1) rfl
  rw [normalizeSeparators_of_no_separators l hdot hcomma]
  unfold finishNumeric
  rw [show l.filter (fun c => c.isDigit || c == '.' || c == '-') = l from
    List.filter_eq_self.mpr (fun c hc => (hfacts c hc).2.2.2.2)]
  have hd0 : (d0 == '-') = false := (digitChar_isDigit d0 (hd d0 (List.mem_cons_self d0 ds'))).2
  have hd0ne : d0 ≠ '-' := beq_eq_false_iff_ne.mp hd0
  have hcond : ¬(l = [] ∨ l = ['-'] ∨ l = ['.']) := by
    rw [hl]
    rintro (h0 | h0 | h0)
    · exact List.cons_ne_nil _ _ h0
    · exact hd0ne (List.head_eq_of_cons_eq h0)
    · have : d0 = '.' := List.head_eq_of_cons_eq h0
      exact ((hfacts '.' (this ▸ List.mem_cons_self d0 (ds' ++ '-' :: rest))).2.2.1) rfl
  rw [if_neg hcond]
  rw [hl]
  exact jsParseFloat_digitRun d0 ds' rest
    (fun c hc => (digitChar_isDigit c (hd c hc)).1) hd0

/-! ## Claim theorems: numeric normalizer -/

/-- C3 (amended): the Numeric Normalizer maps "8.319.886,52" and
"8,319,886.52" to 8319886.52, maps "25.000" to 25 (the single-period
no-comma branch keeps the string as-is, so `parseFloat` reads the period
as a decimal point), and maps "" and "abc" to null. -/
theorem numericNormalizer_examples :
    parseNumericValue "8.319.886,52" = some (8319886.52 : ℚ)
    ∧ parseNumericValue "8,319,886.52" = some (8319886.52 : ℚ)
    ∧ parseNumericValue "25.000" = some (25 : ℚ)
    ∧ parseNumericValue "" = none
    ∧ parseNumericValue "abc" = none := by
  have h1 : parseNumericValue "8.319.886,52" = some ((831988652 : ℚ) / (10 : ℚ) ^ (2 : ℕ)) := by
    rfl
  have h2 : parseNumericValue "8,319,886.52" = some ((831988652 : ℚ) / (10 : ℚ) ^ (2 : ℕ)) := by
    rfl
  have h3 : parseNumericValue "25.000" = some ((25000 : ℚ) / (10 : ℚ) ^ (3 : ℕ)) := by rfl
  refine ⟨?_, ?_, ?_, by decide, by decide⟩
  · rw [h1]; norm_num
  · rw [h2]; norm_num
  · rw [h3]; norm_num

/-- C3 counterexample: the claim states `normalize("25.000") == 25000`,
but the code returns 25 on that input. -/
theorem numericNormalizer_25000_cex :
    parseNumericValue "25.000" = some (25 : ℚ)
    ∧ parseNumericValue "25.000" ≠ some (25000 : ℚ) := by
  have h3 : parseNumericValue "25.000" = some ((25000 : ℚ) / (10 : ℚ) ^ (3 : ℕ)) := by rfl
  constructor
  · rw [h3]; norm_num
  · rw [h3]
    intro hc
    rw [Option.some.injEq] at hc
    norm_num at hc

/-- C7 (amended): when the stripped input contains exactly one period and
more than one comma, the normalizer removes all commas and parses the
remainder (the source branch requires `periodCount === 1`, not
`periodCount <= 1`). -/
theorem numericNormalizer_intlThousands (s : String)
    (h0 : s ≠ "")
    (hp : (stripCurrency (jsTrimList s.data)).count '.' = 1)
    (hc : 1 < (stripCurrency (jsTrimList s.data)).count ',') :
    parseNumericValue s =
      finishNumeric ((stripCurrency (jsTrimList s.data)).filter (fun c => c != ',')) := by
  unfold parseNumericValue
  rw [if_neg h0, normalizeSeparators_intl _ hp hc]

/-- C7 witness: the theorem instantiated at "1,234,567.89". -/
theorem numericNormalizer_intlThousands_witness :
    ("1,234,567.89" : String) ≠ ""
    ∧ (stripCurrency (jsTrimList "1,234,567.89".data)).count '.' = 1
    ∧ 1 < (stripCurrency (jsTrimList "1,234,567.89".data)).count ','
    ∧ parseNumericValue "1,234,567.89" =
        finishNumeric ((stripCurrency (jsTrimList "1,234,567.89".data)).filter
          (fun c => c != ',')) :=
  ⟨by decide, by decide, by decide,
    numericNormalizer_intlThousands "1,234,567.89" (by decide) (by decide) (by decide)⟩

/-- C7 counterexample: "8,319,886" has two commas and no period, so the
claimed `c>1 and p<=1` branch would yield 8319886; the code instead falls
to the ambiguous-format branch, treats the last comma as a decimal
separator and returns 8319.886. -/
theorem numericNormalizer_intlThousands_cex :
    parseNumericValue "8,319,886" = some ((8319886 : ℚ) / 1000)
    ∧ parseNumericValue "8,319,886" ≠ some (8319886 : ℚ) := by
  have h : parseNumericValue "8,319,886" = some ((8319886 : ℚ) / (10 : ℚ) ^ (3 : ℕ)) := by rfl
  constructor
  · rw [h]; norm_num
  · rw [h]
    intro hc
    rw [Option.some.injEq] at hc
    norm_num at hc

/-- C8: the Numeric Normalizer is total — for every input string it
yields a definite result, `null` or a number (it is defined here as a
structurally terminating function of its input string alone, mirroring
the source statement for statement, which also witnesses purity: no
other state enters the computation). -/
theorem numericNormalizer_total (s : String) :
    parseNumericValue s = none ∨ ∃ q : ℚ, parseNumericValue s = some q := by
  cases h : parseNumericValue s with
  | none => exact Or.inl rfl
  | some q => exact Or.inr ⟨q, rfl⟩

/-- C10 (amended): an input made of a nonempty digit run, an embedded
minus sign, and further digits/minus characters is not rejected: the
normalizer returns the value of the leading digit run (so "2024-01-15"
yields 2024); inputs whose cleaned form has no leading digit run, such as
"--5", still yield null. -/
theorem numericNormalizer_dateLikeInput (ds rest : List Char)
    (hne : ds ≠ [])
    (hd : ∀ c ∈ ds, c ∈ digitChars)
    (hr : ∀ c ∈ rest, c ∈ '-' :: digitChars) :
    parseNumericValue ⟨ds ++ '-' :: rest⟩ = some ((digitsToNat ds : ℚ)) :=
  numericNormalizer_leadingDigitRun ds rest hne hd hr

/-- C10 witness: the theorem instantiated at "2024-01-15", which it maps
to 2024. -/
theorem numericNormalizer_dateLikeInput_witness :
    ("2024".data ≠ [])
    ∧ parseNumericValue "2024-01-15" = some (2024 : ℚ) := by
  refine ⟨by decide, ?_⟩
  have h := numericNormalizer_dateLikeInput "2024".data "01-15".data
    (by decide) (by decide) (by decide)
  have hs : (⟨"2024".data ++ '-' :: "01-15".data⟩ : String) = "2024-01-15" := by decide
  have hv : ((digitsToNat "2024".data : ℚ)) = (2024 : ℚ) := by
    rw [show digitsToNat "2024".data = 2024 from rfl]
    norm_num
  rw [hs, hv] at h
  exact h

/-- C10 counterexample: "--5" contains a digit and is not a monetary
value, yet the normalizer returns null for it, refuting the universally
quantified claim. -/
theorem numericNormalizer_digits_cex :
    parseNumericValue "--5" = none ∧ '5' ∈ "--5".data := by
  refine ⟨?_, ?_⟩ <;> decide

/-! ## Claim theorems: queue consumer -/

lemma processWithOrg_drop (env : ConsumerEnv) (o : Option String)
    (h : o = none ∨ o = some "" ∨
      (env.supabaseConfigured = true ∧ ∃ org, o = some org ∧ env.orgExists org = false)) :
    processWithOrg env o = ⟨true, false⟩ := by
  rcases h with h | h | ⟨hsup, org, ho, hex⟩
  · rw [h]; rfl
  · rw [h]; simp [processWithOrg]
  · rw [ho]
    by_cases ho0 : org = ""
    · simp [processWithOrg, ho0]
    · simp [processWithOrg, ho0, hsup, hex]

lemma processWithOrg_throw (env : ConsumerEnv) (o : Option String)
    (hthrow : env.processingThrows = true)
    (hinv : (processWithOrg env o).engineInvoked = true) :
    (processWithOrg env o).deleted = false := by
  cases o with
  | none => simp [processWithOrg] at hinv
  | some org =>
    by_cases h1 : org = ""
    · simp [processWithOrg, h1] at hinv
    · by_cases h2 : env.supabaseConfigured = true ∧ env.orgExists org = false
      · simp [processWithOrg, h1, h2] at hinv
      · simp [processWithOrg, h1, h2, hthrow]

/-- C1 (amended): provided the message body parses as JSON and, for
legacy-format messages, `documentId` and `vertical` are present, a
message whose tenant (organization) id is absent or empty, or — with the
datastore client configured — refers to no existing organization, is
acknowledged (deleted) and the Processing Engine is never invoked on it;
and any message whose processing throws is left unacknowledged.  (A
malformed message — unparseable body, or legacy format missing
`documentId`/`vertical` — instead throws before the tenant check and is
left unacknowledged.) -/
theorem queueConsumer_tenantValidation (env : ConsumerEnv) (m : SqsMessage)
    (hbody : m.bodyParses = true)
    (hwf : m.isS3Event = true ∨
      (m.legacyDocumentId.isSome = true ∧ m.legacyVertical.isSome = true)) :
    ((m.organizationId = none ∨ m.organizationId = some "" ∨
        (env.supabaseConfigured = true ∧
          ∃ org, m.organizationId = some org ∧ env.orgExists org = false)) →
      processMessage env m = ⟨true, false⟩)
    ∧ (env.processingThrows = true → (processMessage env m).engineInvoked = true →
        (processMessage env m).deleted = false) := by
  constructor
  · intro horg
    have hdrop : processWithOrg env m.organizationId = ⟨true, false⟩ :=
      processWithOrg_drop env m.organizationId horg
    rcases hwf with hs3 | ⟨hdoc, hver⟩
    · simp [processMessage, hbody, hs3, hdrop]
    · have hd : ¬(m.legacyDocumentId = none) := by
        intro hc; rw [hc] at hdoc; simp at hdoc
      have hv : ¬(m.legacyVertical = none) := by
        intro hc; rw [hc] at hver; simp at hver
      cases hs3 : m.isS3Event with
      | true => simp [processMessage, hbody, hs3, hdrop]
      | false => simp [processMessage, hbody, hs3, hd, hv, hdrop]
  · intro hthrow hinv
    unfold processMessage at hinv ⊢
    by_cases h1 : m.bodyParses = false
    · rw [if_pos h1] at hinv
      exact absurd hinv (by decide)
    · rw [if_neg h1] at hinv ⊢
      by_cases h2 : m.isS3Event = true
      · rw [if_pos h2] at hinv ⊢
        exact processWithOrg_throw env _ hthrow hinv
      · rw [if_neg h2] at hinv ⊢
        by_cases h3 : m.legacyDocumentId = none ∨ m.legacyVertical = none
        · rw [if_pos h3] at hinv
          exact absurd hinv (by decide)
        · rw [if_neg h3] at hinv ⊢
          exact processWithOrg_throw env _ hthrow hinv

/-- C1 witness: the theorem applied to an S3-event message whose
organization is unknown (acknowledged, engine never invoked), and to the
same message in an environment where processing throws (engine invoked,
message kept). -/
theorem queueConsumer_tenantValidation_witness :
    processMessage qcEnvNoOrg qcMsgUnknownOrg = ⟨true, false⟩
    ∧ (processMessage qcEnvThrow qcMsgUnknownOrg).deleted = false :=
  ⟨(queueConsumer_tenantValidation qcEnvNoOrg qcMsgUnknownOrg rfl (Or.inl rfl)).1
      (Or.inr (Or.inr ⟨rfl, "org-1", rfl, rfl⟩)),
    (queueConsumer_tenantValidation qcEnvThrow qcMsgUnknownOrg rfl (Or.inl rfl)).2 rfl rfl⟩

/-- C1 counterexample: a parseable legacy-format message with no tenant
id and no `documentId` throws at the `documentId`/`vertical` precheck,
so the consumer does not acknowledge it — the claim requires every
absent-tenant message to be deleted. -/
theorem queueConsumer_absentTenant_cex :
    (processMessage qcEnvNoOrg qcMsgLegacyBroken).deleted = false
    ∧ qcMsgLegacyBroken.organizationId = none
    ∧ qcMsgLegacyBroken.bodyParses = true :=
  ⟨rfl, rfl, rfl⟩

/-! ## Claim theorems: strategy router -/

/-- C2 (amended): for every input at or above the 2 MiB threshold that is
not a spreadsheet, when full-text extraction returns text the router
issues exactly one full-text extraction call covering the entire byte
range — no sub-range splitting — followed by exactly one structured-fields
call against the original bytes. -/
theorem strategyRouter_largeFile_calls (n : Nat) (ft : String) (env : RouterEnv)
    (hn : 2 * 1024 * 1024 ≤ n)
    (h1 : ft ≠ "xlsx") (h2 : ft ≠ "xls")
    (h3 : jsTruthyOptStr env.fullTextResult = true) :
    (routerExtractionCalls n ft env).1 =
      [AICall.fullTextCall 0 n, AICall.structuredCall] := by
  have hsmall : ¬(n < 500 * 1024) := by omega
  have hx : ¬(ft = "xlsx" ∨ ft = "xls") := by
    rintro (h | h)
    · exact h1 h
    · exact h2 h
  have hnone : jsTruthyOptStr none = false := rfl
  simp [routerExtractionCalls, hsmall, hx, h3, hnone]

/-- C2 witness: the theorem applied to an 8 MiB PDF whose full-text
extraction succeeds. -/
theorem strategyRouter_largeFile_calls_witness :
    2 * 1024 * 1024 ≤ 8388608
    ∧ ("pdf" : String) ≠ "xlsx"
    ∧ jsTruthyOptStr envLarge.fullTextResult = true
    ∧ (routerExtractionCalls 8388608 "pdf" envLarge).1 =
        [AICall.fullTextCall 0 8388608, AICall.structuredCall] :=
  ⟨by norm_num, by decide, by decide,
    strategyRouter_largeFile_calls 8388608 "pdf" envLarge (by norm_num)
      (by decide) (by decide) (by decide)⟩

/-- C2 counterexample: for an 8 MiB input the trace contains exactly one
full-text extraction call, not more than one as the claim requires. -/
theorem strategyRouter_largeFile_cex :
    countFullTextCalls (routerExtractionCalls 8388608 "pdf" envLarge).1 = 1
    ∧ ¬(1 < countFullTextCalls (routerExtractionCalls 8388608 "pdf" envLarge).1) := by
  refine ⟨by rfl, ?_⟩
  rw [show countFullTextCalls (routerExtractionCalls 8388608 "pdf" envLarge).1 = 1 from rfl]
  omega

/-! ## Claim theorems: response parser -/

/-- C4 (amended): the Response Parser is total, and when the response
contains no brace-delimited JSON candidate it returns exactly the
canonical default structured record — the source applies no
regular-expression field extractors; in every other case the result is
either the default record (parse throw caught) or the parsed object. -/
theorem responseParser_fallback (jp : List Char → Option StructuredRecord) (s : List Char) :
    (braceSpan s = none → extractStructuredDataParse jp s = getDefaultStructuredData)
    ∧ (extractStructuredDataParse jp s = getDefaultStructuredData ∨
        ∃ sub r, braceSpan s = some sub ∧ jp sub = some r ∧
          extractStructuredDataParse jp s = r) := by
  constructor
  · intro h
    simp [extractStructuredDataParse, h]
  · rcases hb : braceSpan s with _ | sub
    · left
      simp [extractStructuredDataParse, hb]
    · rcases hj : jp sub with _ | r
      · left
        simp [extractStructuredDataParse, hb, hj]
      · right
        exact ⟨sub, r, rfl, hj, by simp [extractStructuredDataParse, hb, hj]⟩

/-- C4 witness: the theorem applied to a response with extractable
vendor/amount/date text but no JSON. -/
theorem responseParser_fallback_witness :
    braceSpan c4Response = none
    ∧ extractStructuredDataParse (fun _ => none) c4Response = getDefaultStructuredData :=
  ⟨by decide, (responseParser_fallback (fun _ => none) c4Response).1 (by decide)⟩

/-- C4 counterexample: on a response containing a vendor name, an amount
with currency and a date but no JSON, the parser returns the untouched
default record — its vendor field stays null, so no regex field
reconstruction takes place. -/
theorem responseParser_noRegex_cex :
    extractStructuredDataParse (fun _ => none) c4Response = getDefaultStructuredData
    ∧ getDefaultStructuredData.vendor_name = none :=
  ⟨rfl, rfl⟩

/-- C5 (amended): the brace-scan substring starts at the first `{` that
has a later `}` and runs to the last `}` of the whole response (the
regex is greedy); it coincides with the balanced match only when the
trailing text contains no further `}`. -/
theorem braceScan_greedy (pre mid post : List Char)
    (hpre : '{' ∉ pre) (hpost : '}' ∉ post) :
    braceSpan (pre ++ '{' :: (mid ++ '}' :: post)) = some ('{' :: (mid ++ ['}'])) := by
  induction pre with
  | nil =>
    rw [List.nil_append]
    rw [show braceSpan ('{' :: (mid ++ '}' :: post)) =
        if ('{' : Char) = '{' ∧ '}' ∈ (mid ++ '}' :: post) then
          some ('{' :: (mid ++ '}' :: post).take
            ((lastIndexOfZ '}' (mid ++ '}' :: post)).toNat + 1))
        else braceSpan (mid ++ '}' :: post) from rfl]
    rw [if_pos ⟨rfl, by simp⟩]
    rw [lastIndexOfZ_append_last mid post hpost]
    rw [Int.toNat_natCast]
    rw [List.take_append]
    rfl
  | cons c pre ih =>
    have hcne : c ≠ '{' := fun h => hpre (h ▸ List.mem_cons_self c pre)
    rw [List.cons_append]
    rw [show braceSpan (c :: (pre ++ '{' :: (mid ++ '}' :: post))) =
        if c = '{' ∧ '}' ∈ (pre ++ '{' :: (mid ++ '}' :: post)) then
          some ('{' :: (pre ++ '{' :: (mid ++ '}' :: post)).take
            ((lastIndexOfZ '}' (pre ++ '{' :: (mid ++ '}' :: post))).toNat + 1))
        else braceSpan (pre ++ '{' :: (mid ++ '}' :: post)) from rfl]
    rw [if_neg (fun hcon => hcne hcon.1)]
    exact ih (fun hm => hpre (List.mem_cons_of_mem c hm))

/-- C5 witness: the theorem applied to a response whose trailing text has
no closing brace, where greedy and balanced extraction agree. -/
theorem braceScan_greedy_witness :
    ('{' ∉ "Sure: ".data)
    ∧ ('}' ∉ " tail".data)
    ∧ braceSpan ("Sure: ".data ++ '{' :: ("\"vendor\":\"X\"".data ++ '}' :: " tail".data)) =
        some ('{' :: ("\"vendor\":\"X\"".data ++ ['}'])) :=
  ⟨by decide, by decide,
    braceScan_greedy "Sure: ".data "\"vendor\":\"X\"".data " tail".data
      (by decide) (by decide)⟩

/-- C5 counterexample: on a response whose trailing text contains another
`}`, the greedy span of the code runs to that last `}` and differs from the
balanced match the claim describes. -/
theorem braceScan_balanced_cex :
    braceSpan c5Response =
      some ('{' :: ("\"vendor\":\"X\"".data ++ '}' :: (" note: ".data ++ ['}'])))
    ∧ balancedBraceSpan c5Response = some ('{' :: ("\"vendor\":\"X\"".data ++ ['}']))
    ∧ braceSpan c5Response ≠ balancedBraceSpan c5Response := by
  refine ⟨by decide, by decide, by decide⟩

/-! ## Claim theorems: combined-extraction quality check -/

/-- C9 (amended): the combined structured extraction is kept exactly when
it has a non-empty `line_items` array, or a description string that is
non-empty after trimming, or both a vendor and an amount; it is discarded
exactly when all three fail — in particular a vendor alone or an amount
alone does not save it, while a description alone does. -/
theorem combinedQuality_keep_iff (d : CombinedParsed) :
    combinedQualityFilter d = some d ↔
      ((∃ l, d.line_items = some l ∧ 0 < l.length) ∨
       (∃ s, d.description = some s ∧ jsTrim s ≠ "") ∨
       (d.vendor.isSome = true ∧ d.amount.isSome = true)) := by
  rcases d with ⟨v, a, li, de⟩
  cases v <;> cases a <;> cases li <;> cases de <;>
    simp [combinedQualityFilter, Bool.or_eq_true, Bool.and_eq_true,
      decide_eq_true_eq, bne_iff_ne, List.length_pos, ne_eq] <;>
    tauto

/-- C9 counterexample: a combined extraction with a vendor but no amount,
no line items and no description is discarded, although the claim says
the presence of a vendor alone keeps it. -/
theorem combinedQuality_vendorOnly_cex :
    combinedQualityFilter c9Sample = none ∧ c9Sample.vendor.isSome = true :=
  ⟨rfl, rfl⟩

/-! ## Claim theorems: child-record persistence -/

lemma filterNot_filterNot {α : Type} (p : α → Bool) (l : List α) :
    ((l.filter fun r => !(p r)).filter fun r => !(p r)) = l.filter fun r => !(p r) :=
  List.filter_eq_self.mpr (fun a ha => (List.mem_filter.mp ha).2)

lemma replace_filter_pos {α : Type} (p : α → Bool) (t new : List α)
    (h : ∀ r ∈ new, p r = true) :
    ((t.filter fun r => !(p r)) ++ new).filter p = new := by
  rw [List.filter_append]
  have h1 : (t.filter fun r => !(p r)).filter p = [] := by
    rw [List.filter_eq_nil_iff]
    intro a ha
    have h2 := (List.mem_filter.mp ha).2
    simp only [Bool.not_eq_true'] at h2
    simp [h2]
  rw [h1, List.filter_eq_self.mpr h, List.nil_append]

lemma replace_filter_not {α : Type} (p : α → Bool) (t new : List α)
    (h : ∀ r ∈ new, p r = true) :
    ((t.filter fun r => !(p r)) ++ new).filter (fun r => !(p r)) =
      t.filter fun r => !(p r) := by
  rw [List.filter_append, filterNot_filterNot]
  have h1 : new.filter (fun r => !(p r)) = [] := by
    rw [List.filter_eq_nil_iff]
    intro a ha
    simp [h a ha]
  rw [h1, List.append_nil]

lemma replace_twice {α : Type} (p : α → Bool) (t new : List α)
    (h : ∀ r ∈ new, p r = true) :
    ((((t.filter fun r => !(p r)) ++ new).filter fun r => !(p r)) ++ new) =
      (t.filter fun r => !(p r)) ++ new := by
  rw [replace_filter_not p t new h]

lemma mapWithIdxFrom_pred {A B : Type} (f : Nat → A → B) (p : B → Bool)
    (h : ∀ i a, p (f i a) = true) :
    ∀ (i : Nat) (l : List A), ∀ r ∈ mapWithIdxFrom f i l, p r = true := by
  intro i l
  induction l generalizing i with
  | nil => intro r hr; simp [mapWithIdxFrom] at hr
  | cons a rest ih =>
    intro r hr
    simp only [mapWithIdxFrom] at hr
    rcases List.mem_cons.mp hr with rfl | hm
    · exact h i a
    · exact ih (i + 1) r hm

lemma lineItemRow_key (d : String) : ∀ (i : Nat) (item : LineItemIn),
    ((lineItemRow d i item).document_id == d) = true := by
  intro i item
  simp [lineItemRow]

lemma bankTxRow_key (d : String) : ∀ (i : Nat) (t : BankTxIn),
    ((bankTxRow d i t).document_id == d) = true := by
  intro i t
  simp [bankTxRow]

lemma chunkRow_key (d : String) : ∀ (i : Nat) (e : EmbeddingIn),
    (((⟨d, e.text, e.embedding, i⟩ : ChunkRow)).document_id == d) = true := by
  intro i e
  simp

lemma saveLineItems_idem (t : List LineItemRow) (d : String)
    (items : List LineItemIn) (ap : Option String) :
    saveLineItems (saveLineItems t d items ap) d items ap = saveLineItems t d items ap :=
  replace_twice _ t _ (mapWithIdxFrom_pred _ _ (lineItemRow_key d) 0 items)

lemma createDefaultLineItem_idem (t : List LineItemRow) (d : String)
    (de v : Option String) (am : Option ℚ) :
    createDefaultLineItem (createDefaultLineItem t d de v am) d de v am =
      createDefaultLineItem t d de v am := by
  simp only [createDefaultLineItem]
  split_ifs with h
  · refine replace_twice _ t _ ?_
    intro r hr
    rcases List.mem_singleton.mp hr with rfl
    simp
  · rfl

lemma persistLineItemsStep_idem (T : List LineItemRow) (d : String) (e : ExtractedPersist) :
    persistLineItemsStep (persistLineItemsStep T d e) d e = persistLineItemsStep T d e := by
  unfold persistLineItemsStep
  cases e.line_items with
  | none => exact createDefaultLineItem_idem T d e.description e.vendor e.amount
  | some items =>
    dsimp only
    split_ifs with h
    · exact saveLineItems_idem T d items e.ap_ar_status
    · exact createDefaultLineItem_idem T d e.description e.vendor e.amount

lemma saveBankTransactions_idem (t : List BankTxRow) (d : String) (txs : List BankTxIn) :
    saveBankTransactions (saveBankTransactions t d txs) d txs = saveBankTransactions t d txs :=
  replace_twice _ t _ (mapWithIdxFrom_pred _ _ (bankTxRow_key d) 0 txs)

lemma persistBankStep_idem (T : List BankTxRow) (d : String) (e : ExtractedPersist) :
    persistBankStep (persistBankStep T d e) d e = persistBankStep T d e := by
  unfold persistBankStep
  cases e.bank_transactions with
  | none => rfl
  | some txs =>
    dsimp only
    split_ifs with h
    · exact saveBankTransactions_idem T d txs
    · rfl

lemma saveDocumentChunks_idem (t : List ChunkRow) (d : String) (embs : List EmbeddingIn) :
    saveDocumentChunks (saveDocumentChunks t d embs) d embs = saveDocumentChunks t d embs :=
  replace_twice _ t _ (mapWithIdxFrom_pred _ _ (chunkRow_key d) 0 embs)

lemma persistChunksStep_idem (T : List ChunkRow) (d : String) (embs : List EmbeddingIn) :
    persistChunksStep (persistChunksStep T d embs) d embs = persistChunksStep T d embs := by
  unfold persistChunksStep
  split_ifs with h
  · exact saveDocumentChunks_idem T d embs
  · rfl

/-- C6: each child-record save is a full delete-then-insert replacement —
after a save, the rows of the document are exactly the freshly inserted
rows, and rows of other documents are untouched (never merged with prior
rows) — and the whole child-record persistence step is idempotent:
running it twice with the same extracted data and embeddings leaves the
same single set of rows as running it once. -/
theorem childPersistence_replaceNotMerge_idempotent :
    (∀ (t : List LineItemRow) (d : String) (items : List LineItemIn) (ap : Option String),
        (saveLineItems t d items ap).filter (fun r => r.document_id == d) =
          mapWithIdxFrom (lineItemRow d) 0 items
      ∧ (saveLineItems t d items ap).filter (fun r => !(r.document_id == d)) =
          t.filter (fun r => !(r.document_id == d)))
    ∧ (∀ (t : List BankTxRow) (d : String) (txs : List BankTxIn),
        (saveBankTransactions t d txs).filter (fun r => r.document_id == d) =
          mapWithIdxFrom (bankTxRow d) 0 txs
      ∧ (saveBankTransactions t d txs).filter (fun r => !(r.document_id == d)) =
          t.filter (fun r => !(r.document_id == d)))
    ∧ (∀ (t : List ChunkRow) (d : String) (embs : List EmbeddingIn),
        (saveDocumentChunks t d embs).filter (fun r => r.document_id == d) =
          mapWithIdxFrom (fun i e => (⟨d, e.text, e.embedding, i⟩ : ChunkRow)) 0 embs
      ∧ (saveDocumentChunks t d embs).filter (fun r => !(r.document_id == d)) =
          t.filter (fun r => !(r.document_id == d)))
    ∧ (∀ (s : ChildTables) (d : String) (e : ExtractedPersist) (embs : List EmbeddingIn),
        persistChildren (persistChildren s d e embs) d e embs =
          persistChildren s d e embs) := by
  refine ⟨?_, ?_, ?_, ?_⟩
  · intro t d items ap
    exact ⟨replace_filter_pos _ t _ (mapWithIdxFrom_pred _ _ (lineItemRow_key d) 0 items),
      replace_filter_not _ t _ (mapWithIdxFrom_pred _ _ (lineItemRow_key d) 0 items)⟩
  · intro t d txs
    exact ⟨replace_filter_pos _ t _ (mapWithIdxFrom_pred _ _ (bankTxRow_key d) 0 txs),
      replace_filter_not _ t _ (mapWithIdxFrom_pred _ _ (bankTxRow_key d) 0 txs)⟩
  · intro t d embs
    exact ⟨replace_filter_pos _ t _ (mapWithIdxFrom_pred _ _ (chunkRow_key d) 0 embs),
      replace_filter_not _ t _ (mapWithIdxFrom_pred _ _ (chunkRow_key d) 0 embs)⟩
  · intro s d e embs
    simp only [persistChildren]
    rw [persistLineItemsStep_idem, persistBankStep_idem, persistChunksStep_idem]
